import Mathlib

/-!
Verification model of the fanotify event watcher (r00tu53r/fanotify).

The repository contains three successive variants of one Go program
(`src/fanotify.go` holds two of them, `src/unnamed/part_000` a third).
All three share:
  * the fixed event-metadata header `unix.FanotifyEventMetadata`
    (Event_len u32, Vers u8, Reserved u8, Metadata_len u16, Mask u64,
    Fd i32, Pid i32 — 24 bytes on linux/amd64, native little-endian),
  * the bounds test `FanotifyEventOK`,
  * the record-walk loop in `readEvents` that advances the cursor by
    `metadata.Event_len` and shrinks the remaining count `n` accordingly,
  * the `EventMask` / `Mask` bitmask-to-string catalogues,
  * the mount-table scan in `watch` that maps a mount id to a mount point.

Buffers are modelled as `List Nat` of byte values.  The Go code declares a
zero-initialised array and reads `n` valid bytes into its prefix, so a read
beyond the valid length yields 0; `List.getD _ _ 0` reproduces that.
-/

namespace Fanotify

/-! ## Byte-level primitives -/

/-- One byte of the read buffer.  The Go buffer is a zero-initialised
fixed array whose first `n` bytes are valid, so out-of-range reads give 0. -/
def readByte (buf : List Nat) (j : Nat) : Nat := buf.getD j 0

/-- Little-endian read of `k` bytes starting at offset `i`, as the Go
pointer-reinterpretation does for multi-byte fields on linux/amd64. -/
def readLE (buf : List Nat) (i : Nat) : Nat → Nat
  | 0 => 0
  | k + 1 => readByte buf i + 256 * readLE buf (i + 1) k

/-- Little-endian encoding of `n` into `k` bytes. -/
def encodeLE : Nat → Nat → List Nat
  | 0, _ => []
  | k + 1, n => n % 256 :: encodeLE k (n / 256)

theorem encodeLE_length (k n : Nat) : (encodeLE k n).length = k := by
  induction k generalizing n with
  | zero => rfl
  | succ k ih => simp [encodeLE, ih]

theorem readByte_cons (a : Nat) (l : List Nat) (j : Nat) :
    readByte (a :: l) (j + 1) = readByte l j := by
  simp [readByte]

theorem readLE_cons (a : Nat) (l : List Nat) (j k : Nat) :
    readLE (a :: l) (j + 1) k = readLE l j k := by
  induction k generalizing j with
  | zero => rfl
  | succ k ih =>
    simp only [readLE, readByte_cons]
    have h : j + 1 + 1 = (j + 1) + 1 := rfl
    rw [h, ih]

theorem readByte_append (A B : List Nat) (j : Nat) :
    readByte (A ++ B) (A.length + j) = readByte B j := by
  simp only [readByte, List.getD]
  rw [List.get?_append_right (Nat.le_add_right _ _)]
  simp

theorem readLE_append (A B : List Nat) (j k : Nat) :
    readLE (A ++ B) (A.length + j) k = readLE B j k := by
  induction k generalizing j with
  | zero => rfl
  | succ k ih =>
    simp only [readLE, readByte_append]
    have h : A.length + j + 1 = A.length + (j + 1) := by omega
    rw [h, ih]

theorem readLE_encodeLE (k n : Nat) (rest : List Nat) :
    readLE (encodeLE k n ++ rest) 0 k = n % 256 ^ k := by
  induction k generalizing n with
  | zero => simp [readLE, Nat.mod_one]
  | succ k ih =>
    simp only [encodeLE, List.cons_append, readLE]
    have h0 : readByte (n % 256 :: (encodeLE k (n / 256) ++ rest)) 0 = n % 256 := rfl
    have h1 : readLE (n % 256 :: (encodeLE k (n / 256) ++ rest)) (0 + 1) k
        = readLE (encodeLE k (n / 256) ++ rest) 0 k := readLE_cons _ _ 0 k
    rw [h0, h1, ih]
    have hpow : (256 : Nat) ^ (k + 1) = 256 * 256 ^ k := by ring
    rw [hpow, Nat.mod_mul]

/-! ## The fixed event-metadata header

`unix.FanotifyEventMetadata` on linux/amd64: Event_len u32 at offset 0,
Vers u8 at 4, Reserved u8 at 5, Metadata_len u16 at 6, Mask u64 at 8,
Fd i32 at 16, Pid i32 at 20; `unsafe.Sizeof` = 24.  `Fd` and `Pid` are kept
as their raw 32-bit patterns (the int32 sentinel `FAN_NOFD = -1` is the
pattern 0xFFFFFFFF); none of the modelled paths does signed arithmetic
on them. -/

structure FanotifyEventMetadata where
  Event_len : Nat
  Vers : Nat
  Reserved : Nat
  Metadata_len : Nat
  Mask : Nat
  Fd : Nat
  Pid : Nat
deriving DecidableEq, Repr

/-- Value of `SizeOfFanotifyEventMetadata = uint32(unsafe.Sizeof(_m))`
in all three source variants (linux/amd64 layout above). -/
def SizeOfFanotifyEventMetadata : Nat := 24

/-- `unix.FANOTIFY_METADATA_VERSION` (value 3 in linux/fanotify.h). -/
def FANOTIFY_METADATA_VERSION : Nat := 3

/-- `unix.FAN_EVENT_INFO_TYPE_FID` (value 1). -/
def FAN_EVENT_INFO_TYPE_FID : Nat := 1

/-- `unix.FAN_EVENT_INFO_TYPE_DFID` (value 2). -/
def FAN_EVENT_INFO_TYPE_DFID : Nat := 2

/-- Raw 32-bit pattern of the int32 sentinel `unix.FAN_NOFD = -1`. -/
def FAN_NOFD : Nat := 4294967295

/-- The pointer reinterpretation
`(*unix.FanotifyEventMetadata)(unsafe.Pointer(&buf[i]))` read field by
field at the linux/amd64 offsets in native little-endian order. -/
def decodeMetadata (buf : List Nat) (i : Nat) : FanotifyEventMetadata where
  Event_len := readLE buf i 4
  Vers := readByte buf (i + 4)
  Reserved := readByte buf (i + 5)
  Metadata_len := readLE buf (i + 6) 2
  Mask := readLE buf (i + 8) 8
  Fd := readLE buf (i + 16) 4
  Pid := readLE buf (i + 20) 4

/-- `FanotifyEventOK` (identical in all three variants):
`n >= int(SizeOfFanotifyEventMetadata) && meta.Event_len >= SizeOfFanotifyEventMetadata && int(meta.Event_len) <= n`. -/
def FanotifyEventOK (meta : FanotifyEventMetadata) (n : Nat) : Bool :=
  decide (SizeOfFanotifyEventMetadata ≤ n) &&
    decide (SizeOfFanotifyEventMetadata ≤ meta.Event_len) &&
    decide (meta.Event_len ≤ n)

theorem fanotifyEventOK_iff (meta : FanotifyEventMetadata) (n : Nat) :
    FanotifyEventOK meta n = true ↔
      24 ≤ n ∧ 24 ≤ meta.Event_len ∧ meta.Event_len ≤ n := by
  simp [FanotifyEventOK, SizeOfFanotifyEventMetadata, and_assoc]

/-! ## Synthetic event records and their serialisation

The spec's testable property C1 speaks of "a buffer assembled from N
synthetic EventRecords".  An `EventRecord` carries the header fields and
the trailing bytes (metadata tail plus any auxiliary info record), and is
serialised in the exact wire layout the Go code reinterprets. -/

structure EventRecord where
  vers : Nat
  reserved : Nat
  metadataLen : Nat
  mask : Nat
  fd : Nat
  pid : Nat
  payload : List Nat
deriving DecidableEq, Repr

/-- Total record length: the fixed 24-byte header plus everything that
follows it within the record (`Event_len` on the wire). -/
def EventRecord.eventLen (r : EventRecord) : Nat := 24 + r.payload.length

/-- Wire layout of one record, little-endian, as laid out by the kernel
and reinterpreted by `readEvents`. -/
def encodeRecord (r : EventRecord) : List Nat :=
  encodeLE 4 r.eventLen ++ [r.vers, r.reserved] ++ encodeLE 2 r.metadataLen ++
    encodeLE 8 r.mask ++ encodeLE 4 r.fd ++ encodeLE 4 r.pid ++ r.payload

/-- A synthetic record is well-formed when its fields fit their wire
widths, its version is the one supported protocol version, and its bytes
are bytes.  (`eventLen ≥ 24` holds by construction, so such a record
satisfies the bounds invariant wherever its encoding has room.) -/
def EventRecord.WF (r : EventRecord) : Prop :=
  r.vers = FANOTIFY_METADATA_VERSION ∧ r.reserved < 256 ∧
    r.metadataLen < 2 ^ 16 ∧ r.mask < 2 ^ 64 ∧ r.fd < 2 ^ 32 ∧
    r.pid < 2 ^ 32 ∧ r.eventLen < 2 ^ 32 ∧ ∀ b ∈ r.payload, b < 256

instance (r : EventRecord) : Decidable r.WF := by
  unfold EventRecord.WF; infer_instance

/-- The header a well-formed record's encoding decodes back to. -/
def metaOf (r : EventRecord) : FanotifyEventMetadata :=
  ⟨r.eventLen, r.vers, r.reserved, r.metadataLen, r.mask, r.fd, r.pid⟩

theorem encodeRecord_length (r : EventRecord) :
    (encodeRecord r).length = r.eventLen := by
  simp [encodeRecord, encodeLE_length, EventRecord.eventLen]
  omega

theorem readLE_encodeLE_at (P rest : List Nat) (k n : Nat) :
    readLE (P ++ (encodeLE k n ++ rest)) P.length k = n % 256 ^ k := by
  have h := readLE_append P (encodeLE k n ++ rest) 0 k
  rw [Nat.add_zero] at h
  rw [h, readLE_encodeLE]

theorem readByte_at (P rest : List Nat) (b : Nat) :
    readByte (P ++ ([b] ++ rest)) P.length = b := by
  have h := readByte_append P ([b] ++ rest) 0
  rw [Nat.add_zero] at h
  rw [h]; rfl

theorem decode_encode (pre post : List Nat) (r : EventRecord) (h : r.WF) :
    decodeMetadata (pre ++ (encodeRecord r ++ post)) pre.length = metaOf r := by
  obtain ⟨hv, hres, hmd, hmask, hfd, hpid, hlen, -⟩ := h
  have h1 : readLE (pre ++ (encodeRecord r ++ post)) pre.length 4 = r.eventLen := by
    have hb : pre ++ (encodeRecord r ++ post) = pre ++ (encodeLE 4 r.eventLen ++
        ([r.vers] ++ ([r.reserved] ++ (encodeLE 2 r.metadataLen ++ (encodeLE 8 r.mask ++
          (encodeLE 4 r.fd ++ (encodeLE 4 r.pid ++ (r.payload ++ post)))))))) := by
      simp [encodeRecord]
    rw [hb, readLE_encodeLE_at]
    exact Nat.mod_eq_of_lt (lt_of_lt_of_le hlen (by norm_num))
  have h2 : readByte (pre ++ (encodeRecord r ++ post)) (pre.length + 4) = r.vers := by
    have hb : pre ++ (encodeRecord r ++ post) = (pre ++ encodeLE 4 r.eventLen) ++
        ([r.vers] ++ ([r.reserved] ++ (encodeLE 2 r.metadataLen ++ (encodeLE 8 r.mask ++
          (encodeLE 4 r.fd ++ (encodeLE 4 r.pid ++ (r.payload ++ post))))))) := by
      simp [encodeRecord]
    have hl : (pre ++ encodeLE 4 r.eventLen).length = pre.length + 4 := by
      simp [encodeLE_length]
    rw [hb, ← hl, readByte_at]
  have h3 : readByte (pre ++ (encodeRecord r ++ post)) (pre.length + 5) = r.reserved := by
    have hb : pre ++ (encodeRecord r ++ post) = (pre ++ encodeLE 4 r.eventLen ++ [r.vers]) ++
        ([r.reserved] ++ (encodeLE 2 r.metadataLen ++ (encodeLE 8 r.mask ++
          (encodeLE 4 r.fd ++ (encodeLE 4 r.pid ++ (r.payload ++ post)))))) := by
      simp [encodeRecord]
    have hl : (pre ++ encodeLE 4 r.eventLen ++ [r.vers]).length = pre.length + 5 := by
      simp [encodeLE_length]
    rw [hb, ← hl, readByte_at]
  have h4 : readLE (pre ++ (encodeRecord r ++ post)) (pre.length + 6) 2 = r.metadataLen := by
    have hb : pre ++ (encodeRecord r ++ post) =
        (pre ++ encodeLE 4 r.eventLen ++ [r.vers] ++ [r.reserved]) ++
        (encodeLE 2 r.metadataLen ++ (encodeLE 8 r.mask ++
          (encodeLE 4 r.fd ++ (encodeLE 4 r.pid ++ (r.payload ++ post))))) := by
      simp [encodeRecord]
    have hl : (pre ++ encodeLE 4 r.eventLen ++ [r.vers] ++ [r.reserved]).length
        = pre.length + 6 := by simp [encodeLE_length]
    rw [hb, ← hl, readLE_encodeLE_at]
    exact Nat.mod_eq_of_lt (lt_of_lt_of_le hmd (by norm_num))
  have h5 : readLE (pre ++ (encodeRecord r ++ post)) (pre.length + 8) 8 = r.mask := by
    have hb : pre ++ (encodeRecord r ++ post) =
        (pre ++ encodeLE 4 r.eventLen ++ [r.vers] ++ [r.reserved] ++
          encodeLE 2 r.metadataLen) ++
        (encodeLE 8 r.mask ++ (encodeLE 4 r.fd ++ (encodeLE 4 r.pid ++
          (r.payload ++ post)))) := by
      simp [encodeRecord]
    have hl : (pre ++ encodeLE 4 r.eventLen ++ [r.vers] ++ [r.reserved] ++
        encodeLE 2 r.metadataLen).length = pre.length + 8 := by simp [encodeLE_length]
    rw [hb, ← hl, readLE_encodeLE_at]
    exact Nat.mod_eq_of_lt (lt_of_lt_of_le hmask (by norm_num))
  have h6 : readLE (pre ++ (encodeRecord r ++ post)) (pre.length + 16) 4 = r.fd := by
    have hb : pre ++ (encodeRecord r ++ post) =
        (pre ++ encodeLE 4 r.eventLen ++ [r.vers] ++ [r.reserved] ++
          encodeLE 2 r.metadataLen ++ encodeLE 8 r.mask) ++
        (encodeLE 4 r.fd ++ (encodeLE 4 r.pid ++ (r.payload ++ post))) := by
      simp [encodeRecord]
    have hl : (pre ++ encodeLE 4 r.eventLen ++ [r.vers] ++ [r.reserved] ++
        encodeLE 2 r.metadataLen ++ encodeLE 8 r.mask).length = pre.length + 16 := by
      simp [encodeLE_length]
    rw [hb, ← hl, readLE_encodeLE_at]
    exact Nat.mod_eq_of_lt (lt_of_lt_of_le hfd (by norm_num))
  have h7 : readLE (pre ++ (encodeRecord r ++ post)) (pre.length + 20) 4 = r.pid := by
    have hb : pre ++ (encodeRecord r ++ post) =
        (pre ++ encodeLE 4 r.eventLen ++ [r.vers] ++ [r.reserved] ++
          encodeLE 2 r.metadataLen ++ encodeLE 8 r.mask ++ encodeLE 4 r.fd) ++
        (encodeLE 4 r.pid ++ (r.payload ++ post)) := by
      simp [encodeRecord]
    have hl : (pre ++ encodeLE 4 r.eventLen ++ [r.vers] ++ [r.reserved] ++
        encodeLE 2 r.metadataLen ++ encodeLE 8 r.mask ++ encodeLE 4 r.fd).length
        = pre.length + 20 := by simp [encodeLE_length]
    rw [hb, ← hl, readLE_encodeLE_at]
    exact Nat.mod_eq_of_lt (lt_of_lt_of_le hpid (by norm_num))
  simp [decodeMetadata, metaOf, h1, h2, h3, h4, h5, h6, h7]

/-! ## The record-walk loop of `readEvents`

The inner loop of `readEvents` (all variants) is

  i := 0
  metadata := (*unix.FanotifyEventMetadata)(unsafe.Pointer(&buf[i]))
  for FanotifyEventOK(metadata, n) {
      if metadata.Vers != unix.FANOTIFY_METADATA_VERSION { log.Fatalf(...) }
      ... per-record body ...
      i += int(metadata.Event_len)
      n -= int(metadata.Event_len)
      metadata = (*unix.FanotifyEventMetadata)(unsafe.Pointer(&buf[i]))
  }

`eventWalk` models the walk skeleton: which records are accepted, in which
order, at which offsets, and why the loop stops.  The Go loop has a single
exit condition; the outcome tag below records which disjunct of
`FanotifyEventOK` failed, matching the spec's error taxonomy: `exhausted`
when fewer than header-size bytes remain (clean stop), `invalidBounds`
when a header was present but its `Event_len` failed the bounds test, and
`badVersion` for the fatal `log.Fatalf` on a version mismatch.

The recursion is driven by explicit fuel so that the definition is
structural (hence evaluable in the kernel); fuel `n + 1` never runs out
because every accepted record consumes `Event_len ≥ 24 ≥ 1` bytes of `n`
(`eventWalkAux_fuel` below makes the fuel irrelevance precise). -/

inductive WalkOutcome where
  | exhausted
  | invalidBounds
  | badVersion (v : Nat)
deriving DecidableEq, Repr

def eventWalkAux : Nat → List Nat → Nat → Nat →
    List (Nat × FanotifyEventMetadata) × WalkOutcome
  | 0, _, _, _ => ([], WalkOutcome.exhausted)
  | fuel + 1, buf, i, n =>
    let meta := decodeMetadata buf i
    if FanotifyEventOK meta n then
      if meta.Vers = FANOTIFY_METADATA_VERSION then
        let rest := eventWalkAux fuel buf (i + meta.Event_len) (n - meta.Event_len)
        ((i, meta) :: rest.fst, rest.snd)
      else ([], WalkOutcome.badVersion meta.Vers)
    else
      ([], if SizeOfFanotifyEventMetadata ≤ n then WalkOutcome.invalidBounds
           else WalkOutcome.exhausted)

/-- The record walk over `buf` starting at offset `i` with `n` bytes
remaining. -/
def eventWalk (buf : List Nat) (i n : Nat) :
    List (Nat × FanotifyEventMetadata) × WalkOutcome :=
  eventWalkAux (n + 1) buf i n

theorem eventWalkAux_fuel :
    ∀ f g buf i n, n < f → n < g →
      eventWalkAux f buf i n = eventWalkAux g buf i n := by
  intro f
  induction f with
  | zero => intro g buf i n hf; omega
  | succ f ih =>
    intro g buf i n hf hg
    match g, hg with
    | g + 1, hg =>
      simp only [eventWalkAux]
      set meta := decodeMetadata buf i with hmeta
      by_cases hOK : FanotifyEventOK meta n
      · have hb := (fanotifyEventOK_iff meta n).mp hOK
        have hdec : n - meta.Event_len < n := by omega
        simp only [hOK, if_true]
        by_cases hv : meta.Vers = FANOTIFY_METADATA_VERSION
        · simp only [hv, if_true]
          rw [ih g buf (i + meta.Event_len) (n - meta.Event_len) (by omega) (by omega)]
        · simp [hv]
      · simp [hOK]

theorem eventWalk_step (buf : List Nat) (i n : Nat)
    (hOK : FanotifyEventOK (decodeMetadata buf i) n = true)
    (hv : (decodeMetadata buf i).Vers = FANOTIFY_METADATA_VERSION) :
    eventWalk buf i n =
      ((i, decodeMetadata buf i) ::
        (eventWalk buf (i + (decodeMetadata buf i).Event_len)
          (n - (decodeMetadata buf i).Event_len)).fst,
       (eventWalk buf (i + (decodeMetadata buf i).Event_len)
          (n - (decodeMetadata buf i).Event_len)).snd) := by
  have hb := (fanotifyEventOK_iff _ n).mp hOK
  show eventWalkAux (n + 1) buf i n = _
  simp only [eventWalkAux, hOK, if_true, hv]
  rw [eventWalkAux_fuel n (n - (decodeMetadata buf i).Event_len + 1) buf
    (i + (decodeMetadata buf i).Event_len) (n - (decodeMetadata buf i).Event_len)
    (by omega) (by omega)]
  rfl

theorem eventWalk_stop (buf : List Nat) (i n : Nat)
    (hOK : FanotifyEventOK (decodeMetadata buf i) n = false) :
    eventWalk buf i n =
      ([], if SizeOfFanotifyEventMetadata ≤ n then WalkOutcome.invalidBounds
           else WalkOutcome.exhausted) := by
  show eventWalkAux (n + 1) buf i n = _
  simp [eventWalkAux, hOK]

/-! ## Buffers assembled from synthetic records -/

/-- Concatenation of the encodings of a list of records, the "buffer
assembled from N synthetic EventRecords". -/
def encodeBuf (rs : List EventRecord) : List Nat := (rs.map encodeRecord).flatten

/-- The (offset, header) views the decoder is expected to produce for
records laid end to end from offset `i`: the cursor advances by each
record's `eventLen` (and never by its `metadataLen`). -/
def walkExpected : List EventRecord → Nat → List (Nat × FanotifyEventMetadata)
  | [], _ => []
  | r :: rs, i => (i, metaOf r) :: walkExpected rs (i + r.eventLen)

theorem encodeBuf_cons (r : EventRecord) (rs : List EventRecord) :
    encodeBuf (r :: rs) = encodeRecord r ++ encodeBuf rs := by
  simp [encodeBuf]

theorem walk_encode (rs : List EventRecord) :
    ∀ pre post : List Nat, (∀ r ∈ rs, r.WF) →
      eventWalk (pre ++ (encodeBuf rs ++ post)) pre.length
          ((encodeBuf rs).length + post.length) =
        (walkExpected rs pre.length ++
          (eventWalk (pre ++ (encodeBuf rs ++ post))
            (pre.length + (encodeBuf rs).length) post.length).fst,
         (eventWalk (pre ++ (encodeBuf rs ++ post))
            (pre.length + (encodeBuf rs).length) post.length).snd) := by
  induction rs with
  | nil =>
    intro pre post _
    simp [encodeBuf, walkExpected]
  | cons r rs ih =>
    intro pre post hWF
    have hr : r.WF := hWF r (by simp)
    have hrs : ∀ x ∈ rs, x.WF := fun x hx => hWF x (by simp [hx])
    have hbuf : pre ++ (encodeBuf (r :: rs) ++ post) =
        pre ++ (encodeRecord r ++ (encodeBuf rs ++ post)) := by
      simp [encodeBuf_cons]
    have hdec : decodeMetadata (pre ++ (encodeBuf (r :: rs) ++ post)) pre.length
        = metaOf r := by
      rw [hbuf]; exact decode_encode pre (encodeBuf rs ++ post) r hr
    have hlen : (encodeBuf (r :: rs)).length = r.eventLen + (encodeBuf rs).length := by
      simp [encodeBuf_cons, encodeRecord_length]
    have hn24 : 24 ≤ r.eventLen := by simp [EventRecord.eventLen]
    have hOK : FanotifyEventOK
        (decodeMetadata (pre ++ (encodeBuf (r :: rs) ++ post)) pre.length)
        ((encodeBuf (r :: rs)).length + post.length) = true := by
      rw [hdec]
      exact (fanotifyEventOK_iff _ _).mpr (by simp [metaOf]; omega)
    have hv : (decodeMetadata (pre ++ (encodeBuf (r :: rs) ++ post)) pre.length).Vers
        = FANOTIFY_METADATA_VERSION := by
      rw [hdec]; exact hr.1
    rw [eventWalk_step _ _ _ hOK hv, hdec]
    have harith : (encodeBuf (r :: rs)).length + post.length - (metaOf r).Event_len
        = (encodeBuf rs).length + post.length := by
      simp only [metaOf] at *
      omega
    have hoff : pre.length + (metaOf r).Event_len = (pre ++ encodeRecord r).length := by
      simp [encodeRecord_length, metaOf]
    have hbuf2 : pre ++ (encodeBuf (r :: rs) ++ post) =
        (pre ++ encodeRecord r) ++ (encodeBuf rs ++ post) := by
      simp [encodeBuf_cons]
    rw [harith, hoff]
    have := ih (pre ++ encodeRecord r) post hrs
    rw [← hbuf2] at this
    rw [this]
    have hexp : walkExpected (r :: rs) pre.length =
        (pre.length, metaOf r) :: walkExpected rs (pre ++ encodeRecord r).length := by
      simp [walkExpected, encodeRecord_length, metaOf]
    rw [hexp]
    have hoff2 : (pre ++ encodeRecord r).length + (encodeBuf rs).length =
        pre.length + (encodeBuf (r :: rs)).length := by
      simp [encodeRecord_length, hlen]
      omega
    rw [hoff2]
    simp

theorem fanotifyEventOK_zero (meta : FanotifyEventMetadata) :
    FanotifyEventOK meta 0 = false := by
  simp [FanotifyEventOK, SizeOfFanotifyEventMetadata]

/-- C1: for every buffer assembled from N well-formed synthetic event
records (each satisfying the bounds invariant by construction:
`eventLen = 24 + payload.length ≥ 24` and, records being laid end to end,
`eventLen ≤` bytes remaining at each record's start), the `readEvents`
record walk starting at offset 0 yields exactly those N records in their
original order, the cursor after each record having advanced by that
record's `eventLen` — `walkExpected` steps by `eventLen`, never by
`metadataLen` — and the walk then stops cleanly. -/
theorem c1_decode_assembled_buffer (rs : List EventRecord) (h : ∀ r ∈ rs, r.WF) :
    eventWalk (encodeBuf rs) 0 (encodeBuf rs).length =
      (walkExpected rs 0, WalkOutcome.exhausted) := by
  have hmain := walk_encode rs [] [] h
  simp only [List.nil_append, List.append_nil, List.length_nil, Nat.add_zero,
    Nat.zero_add] at hmain
  have hstop : eventWalk (encodeBuf rs) (encodeBuf rs).length 0 =
      ([], WalkOutcome.exhausted) := by
    rw [eventWalk_stop _ _ _ (fanotifyEventOK_zero _)]
    simp [SizeOfFanotifyEventMetadata]
  rw [hmain, hstop]
  simp

/-- First demo record: 4-byte trailing payload, so `eventLen = 28` while
`metadataLen = 24`; the walk must advance by 28. -/
def demoRecordA : EventRecord := ⟨3, 0, 24, 3, FAN_NOFD, 77, [1, 0, 8, 0]⟩

/-- Second demo record: no trailing payload, `eventLen = 24`,
`metadataLen` deliberately different (16). -/
def demoRecordB : EventRecord := ⟨3, 0, 16, 256, FAN_NOFD, 78, []⟩

/-- Witness for C1 at a concrete two-record buffer. -/
theorem c1_decode_assembled_buffer_witness :
    (∀ r ∈ [demoRecordA, demoRecordB], r.WF) ∧
      eventWalk (encodeBuf [demoRecordA, demoRecordB]) 0
          (encodeBuf [demoRecordA, demoRecordB]).length =
        (walkExpected [demoRecordA, demoRecordB] 0, WalkOutcome.exhausted) :=
  ⟨by decide, c1_decode_assembled_buffer [demoRecordA, demoRecordB] (by decide)⟩

/-! ## Which buffer offsets the record walk reads

`walkReadsAux` mirrors `eventWalkAux` and lists every byte offset the
record-decoding loop reads from `buf`, over-approximating per accepted
record: thanks to Go's short-circuit `&&` in `FanotifyEventOK`, nothing is
read while `n < SizeOfFanotifyEventMetadata`; with header-size bytes
remaining the 4 `Event_len` bytes are read for the bounds test; for a
record that passes it the `Vers` byte is read, and the body may read the
whole 24-byte header (it logs `*metadata`).  Reads of the trailing
auxiliary record (`debugFIDStruct` territory, claim C5) are a separate
component and are modelled separately below. -/

def walkReadsAux : Nat → List Nat → Nat → Nat → List Nat
  | 0, _, _, _ => []
  | fuel + 1, buf, i, n =>
    if SizeOfFanotifyEventMetadata ≤ n then
      let meta := decodeMetadata buf i
      if FanotifyEventOK meta n then
        if meta.Vers = FANOTIFY_METADATA_VERSION then
          (List.range 24).map (i + ·) ++
            walkReadsAux fuel buf (i + meta.Event_len) (n - meta.Event_len)
        else (List.range 5).map (i + ·)
      else (List.range 4).map (i + ·)
    else []

def walkReads (buf : List Nat) (i n : Nat) : List Nat :=
  walkReadsAux (n + 1) buf i n

theorem mem_range_map_lt {i k j : Nat} (h : j ∈ (List.range k).map (i + ·)) :
    j < i + k := by
  obtain ⟨m, hm, he⟩ := List.mem_map.mp h
  have := List.mem_range.mp hm
  omega

theorem walkReadsAux_lt :
    ∀ fuel buf i n j, j ∈ walkReadsAux fuel buf i n → j < i + n := by
  intro fuel
  induction fuel with
  | zero => intro buf i n j hj; simp [walkReadsAux] at hj
  | succ fuel ih =>
    intro buf i n j hj
    simp only [walkReadsAux] at hj
    by_cases hn : SizeOfFanotifyEventMetadata ≤ n
    · simp only [hn, if_true] at hj
      have hn24 : 24 ≤ n := hn
      by_cases hOK : FanotifyEventOK (decodeMetadata buf i) n
      · simp only [hOK, if_true] at hj
        have hb := (fanotifyEventOK_iff _ n).mp hOK
        by_cases hv : (decodeMetadata buf i).Vers = FANOTIFY_METADATA_VERSION
        · simp only [hv, if_true] at hj
          rcases List.mem_append.mp hj with hj | hj
          · have := mem_range_map_lt hj
            omega
          · have := ih buf (i + (decodeMetadata buf i).Event_len)
              (n - (decodeMetadata buf i).Event_len) j hj
            omega
        · simp only [hv, if_false] at hj
          have := mem_range_map_lt hj
          omega
      · simp only [hOK, if_false] at hj
        have := mem_range_map_lt hj
        omega
    · simp [hn] at hj

/-- C2: a buffer of well-formed records followed by a final record whose
header is present (`24 ≤ bad.length`) but whose declared `Event_len`
exceeds the bytes remaining at its start decodes to exactly the prior
records, stops with the `invalidBounds` outcome (the walk abandons the
rest of this buffer; `readEvents` then returns to the next read), and
every byte offset the record walk reads lies inside the buffer's valid
length. -/
theorem c2_invalid_bounds_stops_walk (rs : List EventRecord) (bad : List Nat)
    (hWF : ∀ r ∈ rs, r.WF) (h24 : 24 ≤ bad.length)
    (hbad : bad.length < readLE bad 0 4) :
    eventWalk (encodeBuf rs ++ bad) 0 (encodeBuf rs ++ bad).length =
        (walkExpected rs 0, WalkOutcome.invalidBounds) ∧
      ∀ j ∈ walkReads (encodeBuf rs ++ bad) 0 (encodeBuf rs ++ bad).length,
        j < (encodeBuf rs ++ bad).length := by
  have hlen : (encodeBuf rs ++ bad).length = (encodeBuf rs).length + bad.length := by
    simp
  constructor
  · have hmain := walk_encode rs [] bad hWF
    simp only [List.nil_append, List.length_nil, Nat.zero_add] at hmain
    have hEv : (decodeMetadata (encodeBuf rs ++ bad) (encodeBuf rs).length).Event_len
        = readLE bad 0 4 := by
      show readLE (encodeBuf rs ++ bad) (encodeBuf rs).length 4 = readLE bad 0 4
      have := readLE_append (encodeBuf rs) bad 0 4
      rw [Nat.add_zero] at this
      exact this
    have hOKf : FanotifyEventOK
        (decodeMetadata (encodeBuf rs ++ bad) (encodeBuf rs).length) bad.length
        = false := by
      apply Bool.eq_false_iff.mpr
      intro hc
      have := (fanotifyEventOK_iff _ _).mp hc
      rw [hEv] at this
      omega
    have hstop := eventWalk_stop (encodeBuf rs ++ bad) (encodeBuf rs).length
      bad.length hOKf
    rw [hlen, hmain, hstop]
    have : SizeOfFanotifyEventMetadata ≤ bad.length := h24
    simp [this]
  · intro j hj
    have := walkReadsAux_lt ((encodeBuf rs ++ bad).length + 1)
      (encodeBuf rs ++ bad) 0 (encodeBuf rs ++ bad).length j hj
    omega

/-- A 24-byte truncated tail record: header present, declared
`Event_len = 100`, but only 24 bytes remain. -/
def demoBadTail : List Nat := [100, 0, 0, 0] ++ List.replicate 20 0

/-- Witness for C2 at a concrete buffer: one valid record followed by the
truncated tail. -/
theorem c2_invalid_bounds_stops_walk_witness :
    ((∀ r ∈ [demoRecordA], r.WF) ∧ 24 ≤ demoBadTail.length ∧
        demoBadTail.length < readLE demoBadTail 0 4) ∧
      eventWalk (encodeBuf [demoRecordA] ++ demoBadTail) 0
            (encodeBuf [demoRecordA] ++ demoBadTail).length =
          (walkExpected [demoRecordA] 0, WalkOutcome.invalidBounds) ∧
        ∀ j ∈ walkReads (encodeBuf [demoRecordA] ++ demoBadTail) 0
            (encodeBuf [demoRecordA] ++ demoBadTail).length,
          j < (encodeBuf [demoRecordA] ++ demoBadTail).length :=
  ⟨by decide,
   c2_invalid_bounds_stops_walk [demoRecordA] demoBadTail (by decide) (by decide)
     (by decide)⟩

/-! ## The full per-record body of the first variant's `readEvents`

`src/fanotify.go` lines 119-174 (first variant).  Per accepted record the
body reinterprets `&buf[i+int(metadata.Metadata_len)]` as a
`FanotifyEventInfoFID` and inspects `fid.Header.InfoType` (one byte at
offset `i + Metadata_len`).  If it equals `FAN_EVENT_INFO_TYPE_FID` the
code calls `unix.OpenByHandleAt` and, on success, `unix.Readlink`; the
combined outcome of those two syscalls is external input, modelled by the
oracle `resolve : Nat → Option String` indexed by the record's start
offset (`none` = `OpenByHandleAt` returned an error).  On that error path
the code logs the errno, advances `i`/`n` and `continue`s — skipping the
rest of the body, including the `Path: ...; Mask: ...` report and the
`FanotifyEventMetadata` log, for this record only.  A non-FID info type
(e.g. `FAN_EVENT_INFO_TYPE_DFID`, logged as "identifies parent object")
is never resolved and never fatal in this variant. -/

inductive Resolution where
  | notAttempted
  | failed
  | resolved (path : String)
deriving DecidableEq, Repr

/-- Whether the record's `Path: ...; Mask: ...` report line was emitted:
the code prints it only after a successful `OpenByHandleAt`/`Readlink`. -/
def Resolution.maskReported : Resolution → Bool
  | .resolved _ => true
  | _ => false

structure RecordResult where
  offset : Nat
  meta : FanotifyEventMetadata
  infoType : Nat
  resolution : Resolution
deriving DecidableEq, Repr

def readEventsLoopAux (resolve : Nat → Option String) :
    Nat → List Nat → Nat → Nat → List RecordResult × WalkOutcome
  | 0, _, _, _ => ([], WalkOutcome.exhausted)
  | fuel + 1, buf, i, n =>
    let meta := decodeMetadata buf i
    if FanotifyEventOK meta n then
      if meta.Vers = FANOTIFY_METADATA_VERSION then
        let t := readByte buf (i + meta.Metadata_len)
        let res :=
          if t = FAN_EVENT_INFO_TYPE_FID then
            match resolve i with
            | none => Resolution.failed
            | some p => Resolution.resolved p
          else Resolution.notAttempted
        let rest := readEventsLoopAux resolve fuel buf
          (i + meta.Event_len) (n - meta.Event_len)
        (⟨i, meta, t, res⟩ :: rest.fst, rest.snd)
      else ([], WalkOutcome.badVersion meta.Vers)
    else
      ([], if SizeOfFanotifyEventMetadata ≤ n then WalkOutcome.invalidBounds
           else WalkOutcome.exhausted)

/-- The first variant's record loop over one read's worth of bytes. -/
def readEventsLoop (resolve : Nat → Option String) (buf : List Nat) (i n : Nat) :
    List RecordResult × WalkOutcome :=
  readEventsLoopAux resolve (n + 1) buf i n

theorem readEventsLoopAux_fuel (resolve : Nat → Option String) :
    ∀ f g buf i n, n < f → n < g →
      readEventsLoopAux resolve f buf i n = readEventsLoopAux resolve g buf i n := by
  intro f
  induction f with
  | zero => intro g buf i n hf; omega
  | succ f ih =>
    intro g buf i n hf hg
    match g, hg with
    | g + 1, hg =>
      simp only [readEventsLoopAux]
      set meta := decodeMetadata buf i with hmeta
      by_cases hOK : FanotifyEventOK meta n
      · have hb := (fanotifyEventOK_iff meta n).mp hOK
        simp only [hOK, if_true]
        by_cases hv : meta.Vers = FANOTIFY_METADATA_VERSION
        · simp only [hv, if_true]
          rw [ih g buf (i + meta.Event_len) (n - meta.Event_len) (by omega) (by omega)]
        · simp [hv]
      · simp [hOK]

theorem readEventsLoop_step (resolve : Nat → Option String) (buf : List Nat)
    (i n : Nat)
    (hOK : FanotifyEventOK (decodeMetadata buf i) n = true)
    (hv : (decodeMetadata buf i).Vers = FANOTIFY_METADATA_VERSION) :
    readEventsLoop resolve buf i n =
      (⟨i, decodeMetadata buf i,
          readByte buf (i + (decodeMetadata buf i).Metadata_len),
          if readByte buf (i + (decodeMetadata buf i).Metadata_len)
              = FAN_EVENT_INFO_TYPE_FID then
            match resolve i with
            | none => Resolution.failed
            | some p => Resolution.resolved p
          else Resolution.notAttempted⟩ ::
        (readEventsLoop resolve buf (i + (decodeMetadata buf i).Event_len)
          (n - (decodeMetadata buf i).Event_len)).fst,
       (readEventsLoop resolve buf (i + (decodeMetadata buf i).Event_len)
          (n - (decodeMetadata buf i).Event_len)).snd) := by
  have hb := (fanotifyEventOK_iff _ n).mp hOK
  show readEventsLoopAux resolve (n + 1) buf i n = _
  simp only [readEventsLoopAux, hOK, if_true, hv]
  rw [readEventsLoopAux_fuel resolve n
    (n - (decodeMetadata buf i).Event_len + 1) buf
    (i + (decodeMetadata buf i).Event_len) (n - (decodeMetadata buf i).Event_len)
    (by omega) (by omega)]
  rfl

/-! ## One iteration of the outer read loop

`readEvents` (all variants) reads into the zeroed buffer and then, before
walking records, switches on the count returned by `unix.Read`:
`n == 0` returns `io.EOF`, `0 < n < SizeOfFanotifyEventMetadata` returns
`ErrInvalidData`, otherwise the record walk runs from offset 0.
(The `errno != nil` case concerns the external read itself and carries no
decoding behaviour.) -/

inductive ReadError where
  | eof
  | invalidData
deriving DecidableEq, Repr

def readEventsOnce (resolve : Nat → Option String) (buf : List Nat) (n : Nat) :
    Except ReadError (List RecordResult × WalkOutcome) :=
  if n = 0 then Except.error ReadError.eof
  else if n < SizeOfFanotifyEventMetadata then Except.error ReadError.invalidData
  else Except.ok (readEventsLoop resolve buf 0 n)

/-- The everywhere-failing resolution oracle (every `OpenByHandleAt`
returns an error, e.g. the object was deleted). -/
def resolveNone : Nat → Option String := fun _ => none

/-- An oracle whose every resolution succeeds with a fixed path. -/
def resolveDemo : Nat → Option String := fun _ => some "/watched/file"

/-- C3 counterexample: a 10-byte buffer (shorter than the 24-byte fixed
header) makes `readEvents` return `ErrInvalidData` — an error — rather
than the graceful empty result the claim states. -/
theorem c3_short_buffer_counterexample :
    readEventsOnce resolveNone (List.replicate 10 7) 10 =
      Except.error ReadError.invalidData := rfl

/-- C3 amended: for every buffer shorter than the fixed header size the
record-walk loop decodes zero records and signals no bounds violation
(clean `exhausted` stop), but `readEvents` reports `ErrInvalidData` for
such a non-empty short read (`io.EOF` when empty) instead of returning
without error. -/
theorem c3_short_buffer_amended (resolve : Nat → Option String)
    (buf : List Nat) (n : Nat) (h0 : 0 < n) (h24 : n < 24) :
    readEventsOnce resolve buf n = Except.error ReadError.invalidData ∧
      eventWalk buf 0 n = ([], WalkOutcome.exhausted) := by
  constructor
  · have hn0 : ¬ n = 0 := by omega
    have hlt : n < SizeOfFanotifyEventMetadata := h24
    simp [readEventsOnce, hn0, hlt]
  · have hOKf : FanotifyEventOK (decodeMetadata buf 0) n = false := by
      apply Bool.eq_false_iff.mpr
      intro hc
      have := (fanotifyEventOK_iff _ _).mp hc
      omega
    rw [eventWalk_stop _ _ _ hOKf]
    have : ¬ SizeOfFanotifyEventMetadata ≤ n := by
      simp [SizeOfFanotifyEventMetadata]; omega
    simp [this]

/-- Witness for the amended C3 at a concrete 16-byte buffer. -/
theorem c3_short_buffer_amended_witness :
    (0 < 16 ∧ 16 < 24) ∧
      readEventsOnce resolveNone (List.replicate 16 1) 16 =
          Except.error ReadError.invalidData ∧
        eventWalk (List.replicate 16 1) 0 16 = ([], WalkOutcome.exhausted) :=
  ⟨by decide,
   c3_short_buffer_amended resolveNone (List.replicate 16 1) 16 (by decide)
     (by decide)⟩

/-- A record whose trailing info header carries the non-directory identity
tag `FAN_EVENT_INFO_TYPE_FID` (payload byte 0 = 1). -/
def demoRecordFID : EventRecord := ⟨3, 0, 24, 2, FAN_NOFD, 0, [1, 0, 8, 0]⟩

/-- A record whose trailing info header carries the parent-directory tag
`FAN_EVENT_INFO_TYPE_DFID` (payload byte 0 = 2). -/
def demoRecordDFID : EventRecord := ⟨3, 0, 24, 1, FAN_NOFD, 0, [2, 0, 8, 0]⟩

/-- Concrete one-record buffer whose event carries a FID info record. -/
def bufFID : List Nat := encodeBuf [demoRecordFID]

/-- C7 counterexample: on a buffer holding one FID event, with every
`OpenByHandleAt` failing (object already deleted), the walk finishes
without aborting but the failed event's `Path: ...; Mask: ...` report is
never emitted — `maskReported` is false for it — contradicting the
claim's "the event is still reported with its mask decoded" (the
`continue` in `readEvents` also skips that record's metadata log). -/
theorem c7_resolution_failure_counterexample :
    ((readEventsLoop resolveNone bufFID 0 28).fst.map
        (fun r => r.resolution.maskReported)) = [false] ∧
      (readEventsLoop resolveNone bufFID 0 28).snd = WalkOutcome.exhausted := by
  decide

/-- C7 amended: when an event's info type is FID and `OpenByHandleAt`
fails for it, the failure is confined to that event: the walk records a
single `failed` resolution for it (the oracle is consulted exactly once,
in this one loop iteration — no retry), does not abort, and continues as
the walk of the remaining bytes; however the failed event is skipped by
`continue` without its `Path: ...; Mask: ...` report, so its mask is not
reported. -/
theorem c7_resolution_failure_amended (resolve : Nat → Option String)
    (buf : List Nat) (i n : Nat)
    (hOK : FanotifyEventOK (decodeMetadata buf i) n = true)
    (hv : (decodeMetadata buf i).Vers = FANOTIFY_METADATA_VERSION)
    (ht : readByte buf (i + (decodeMetadata buf i).Metadata_len)
      = FAN_EVENT_INFO_TYPE_FID)
    (hr : resolve i = none) :
    readEventsLoop resolve buf i n =
      (⟨i, decodeMetadata buf i, FAN_EVENT_INFO_TYPE_FID, Resolution.failed⟩ ::
        (readEventsLoop resolve buf (i + (decodeMetadata buf i).Event_len)
          (n - (decodeMetadata buf i).Event_len)).fst,
       (readEventsLoop resolve buf (i + (decodeMetadata buf i).Event_len)
          (n - (decodeMetadata buf i).Event_len)).snd) ∧
      Resolution.failed.maskReported = false := by
  refine ⟨?_, rfl⟩
  rw [readEventsLoop_step resolve buf i n hOK hv]
  simp [ht, hr]

/-- Witness for the amended C7 at the concrete FID buffer with the
everywhere-failing oracle. -/
theorem c7_resolution_failure_amended_witness :
    readEventsLoop resolveNone bufFID 0 28 =
      (⟨0, decodeMetadata bufFID 0, FAN_EVENT_INFO_TYPE_FID, Resolution.failed⟩ ::
        (readEventsLoop resolveNone bufFID (0 + (decodeMetadata bufFID 0).Event_len)
          (28 - (decodeMetadata bufFID 0).Event_len)).fst,
       (readEventsLoop resolveNone bufFID (0 + (decodeMetadata bufFID 0).Event_len)
          (28 - (decodeMetadata bufFID 0).Event_len)).snd) ∧
      Resolution.failed.maskReported = false :=
  c7_resolution_failure_amended resolveNone bufFID 0 28 (by decide) (by decide)
    (by decide) rfl

/-- C6 amended (first variant, `src/fanotify.go` lines 146-151): an event
whose info type differs from `FAN_EVENT_INFO_TYPE_FID` is recognized (its
tag is read and recorded; FID/DFID cases are logged) but its identity is
never resolved (`notAttempted`), the walk does not abort, and processing
continues as the walk of the remaining bytes.  In the report-FID variants
(`src/fanotify.go` lines 517-522, `src/unnamed/part_000` lines 215-220)
the same situation instead hits `log.Fatalf` — see the counterexample. -/
theorem c6_non_fid_tag_skipped_amended (resolve : Nat → Option String)
    (buf : List Nat) (i n : Nat)
    (hOK : FanotifyEventOK (decodeMetadata buf i) n = true)
    (hv : (decodeMetadata buf i).Vers = FANOTIFY_METADATA_VERSION)
    (ht : readByte buf (i + (decodeMetadata buf i).Metadata_len)
      ≠ FAN_EVENT_INFO_TYPE_FID) :
    readEventsLoop resolve buf i n =
      (⟨i, decodeMetadata buf i,
          readByte buf (i + (decodeMetadata buf i).Metadata_len),
          Resolution.notAttempted⟩ ::
        (readEventsLoop resolve buf (i + (decodeMetadata buf i).Event_len)
          (n - (decodeMetadata buf i).Event_len)).fst,
       (readEventsLoop resolve buf (i + (decodeMetadata buf i).Event_len)
          (n - (decodeMetadata buf i).Event_len)).snd) := by
  rw [readEventsLoop_step resolve buf i n hOK hv]
  simp [ht]

/-- Witness for the amended C6: a DFID-tagged event followed by a FID
event; the DFID event is skipped without resolution and the next event is
still processed. -/
theorem c6_non_fid_tag_skipped_amended_witness :
    readEventsLoop resolveDemo (encodeBuf [demoRecordDFID, demoRecordFID]) 0 56 =
      (⟨0, decodeMetadata (encodeBuf [demoRecordDFID, demoRecordFID]) 0,
          readByte (encodeBuf [demoRecordDFID, demoRecordFID])
            (0 + (decodeMetadata (encodeBuf [demoRecordDFID, demoRecordFID]) 0).Metadata_len),
          Resolution.notAttempted⟩ ::
        (readEventsLoop resolveDemo (encodeBuf [demoRecordDFID, demoRecordFID])
          (0 + (decodeMetadata (encodeBuf [demoRecordDFID, demoRecordFID]) 0).Event_len)
          (56 - (decodeMetadata (encodeBuf [demoRecordDFID, demoRecordFID]) 0).Event_len)).fst,
       (readEventsLoop resolveDemo (encodeBuf [demoRecordDFID, demoRecordFID])
          (0 + (decodeMetadata (encodeBuf [demoRecordDFID, demoRecordFID]) 0).Event_len)
          (56 - (decodeMetadata (encodeBuf [demoRecordDFID, demoRecordFID]) 0).Event_len)).snd) :=
  c6_non_fid_tag_skipped_amended resolveDemo
    (encodeBuf [demoRecordDFID, demoRecordFID]) 0 56 (by decide) (by decide)
    (by decide)

/-! ## The per-record body of the report-FID variants

`src/fanotify.go` lines 477-560 (second variant, whose `initFlags`
include `FAN_REPORT_FID` via `fileOrDirCreated`) and
`src/unnamed/part_000` lines 182-254 (same body; there `initFlags` lack
`FAN_REPORT_FID`, so the flag-guarded block is inert).  Under the flag the
body first requires `metadata.Fd == unix.FAN_NOFD` (`log.Fatalf`
otherwise), then reads the info type at `i + Metadata_len`; a tag other
than `FAN_EVENT_INFO_TYPE_FID` hits the `default: log.Fatalf` branch,
aborting the whole program.  For a FID tag, `OpenByHandleAt` failure
takes the same advance-and-`continue` path as the first variant.  Without
the flag the body falls through to the metadata log and, when `Fd` is a
real descriptor, reports the path read from `/proc/self/fd/<Fd>`
(`log.Fatalf` when that `Readlink` fails); `procRl` is the oracle for
that readlink. -/

inductive FIDWalkOutcome where
  | exhausted
  | invalidBounds
  | badVersion (v : Nat)
  | fatalUnexpectedFd (fd : Nat)
  | fatalUnexpectedInfoType (t : Nat)
  | fatalReadlink
deriving DecidableEq, Repr

structure FIDRecordResult where
  offset : Nat
  meta : FanotifyEventMetadata
  infoType : Option Nat
  resolution : Resolution
  procPath : Option String
deriving DecidableEq, Repr

def readEventsFIDAux (reportFID : Bool) (resolve procRl : Nat → Option String) :
    Nat → List Nat → Nat → Nat → List FIDRecordResult × FIDWalkOutcome
  | 0, _, _, _ => ([], FIDWalkOutcome.exhausted)
  | fuel + 1, buf, i, n =>
    let meta := decodeMetadata buf i
    if FanotifyEventOK meta n then
      if meta.Vers = FANOTIFY_METADATA_VERSION then
        if reportFID && decide (meta.Fd ≠ FAN_NOFD) then
          ([], FIDWalkOutcome.fatalUnexpectedFd meta.Fd)
        else if reportFID then
          let t := readByte buf (i + meta.Metadata_len)
          if t = FAN_EVENT_INFO_TYPE_FID then
            match resolve i with
            | none =>
              let rest := readEventsFIDAux reportFID resolve procRl fuel buf
                (i + meta.Event_len) (n - meta.Event_len)
              (⟨i, meta, some t, Resolution.failed, none⟩ :: rest.fst, rest.snd)
            | some p =>
              let rest := readEventsFIDAux reportFID resolve procRl fuel buf
                (i + meta.Event_len) (n - meta.Event_len)
              (⟨i, meta, some t, Resolution.resolved p, none⟩ :: rest.fst, rest.snd)
          else ([], FIDWalkOutcome.fatalUnexpectedInfoType t)
        else
          if meta.Fd ≠ FAN_NOFD then
            match procRl i with
            | none => ([], FIDWalkOutcome.fatalReadlink)
            | some q =>
              let rest := readEventsFIDAux reportFID resolve procRl fuel buf
                (i + meta.Event_len) (n - meta.Event_len)
              (⟨i, meta, none, Resolution.notAttempted, some q⟩ :: rest.fst, rest.snd)
          else
            let rest := readEventsFIDAux reportFID resolve procRl fuel buf
              (i + meta.Event_len) (n - meta.Event_len)
            (⟨i, meta, none, Resolution.notAttempted, none⟩ :: rest.fst, rest.snd)
      else ([], FIDWalkOutcome.badVersion meta.Vers)
    else
      ([], if SizeOfFanotifyEventMetadata ≤ n then FIDWalkOutcome.invalidBounds
           else FIDWalkOutcome.exhausted)

def readEventsFID (reportFID : Bool) (resolve procRl : Nat → Option String)
    (buf : List Nat) (i n : Nat) : List FIDRecordResult × FIDWalkOutcome :=
  readEventsFIDAux reportFID resolve procRl (n + 1) buf i n

/-- C6 counterexample: under `FAN_REPORT_FID` (the second variant's
configuration) a buffer whose first event carries the parent-directory
tag `FAN_EVENT_INFO_TYPE_DFID = 2` makes the walk abort fatally with
`Unexpected InfoType`, processing zero events — the FID event that
follows in the same buffer is never reached — contradicting the claim
that a non-FID tag is skipped and processing continues. -/
theorem c6_non_fid_tag_counterexample :
    readEventsFID true resolveDemo resolveDemo
        (encodeBuf [demoRecordDFID, demoRecordFID]) 0 56 =
      ([], FIDWalkOutcome.fatalUnexpectedInfoType 2) := by
  decide

/-! ## Termination of the record walk (C10)

Each accepted record satisfies `24 ≤ Event_len ≤ n`, so every iteration —
including the `OpenByHandleAt`-failure `continue` path, which performs the
same `i += Event_len; n -= Event_len` advance — strictly increases the
cursor and strictly decreases the remaining count by at least the header
size.  Hence at most `n / 24` records are processed and the walk's
offsets are strictly increasing. -/

theorem readEventsLoopAux_len (resolve : Nat → Option String) :
    ∀ fuel buf i n, 24 * (readEventsLoopAux resolve fuel buf i n).fst.length ≤ n := by
  intro fuel
  induction fuel with
  | zero => intro buf i n; simp [readEventsLoopAux]
  | succ fuel ih =>
    intro buf i n
    simp only [readEventsLoopAux]
    by_cases hOK : FanotifyEventOK (decodeMetadata buf i) n
    · have hb := (fanotifyEventOK_iff _ n).mp hOK
      simp only [hOK, if_true]
      by_cases hv : (decodeMetadata buf i).Vers = FANOTIFY_METADATA_VERSION
      · simp only [hv, if_true, List.length_cons]
        have := ih buf (i + (decodeMetadata buf i).Event_len)
          (n - (decodeMetadata buf i).Event_len)
        omega
      · simp [hv]
    · simp [hOK]

theorem readEventsLoopAux_offset_lb (resolve : Nat → Option String) :
    ∀ fuel buf i n r, r ∈ (readEventsLoopAux resolve fuel buf i n).fst →
      i ≤ r.offset := by
  intro fuel
  induction fuel with
  | zero => intro buf i n r hr; simp [readEventsLoopAux] at hr
  | succ fuel ih =>
    intro buf i n r hr
    simp only [readEventsLoopAux] at hr
    by_cases hOK : FanotifyEventOK (decodeMetadata buf i) n
    · have hb := (fanotifyEventOK_iff _ n).mp hOK
      simp only [hOK, if_true] at hr
      by_cases hv : (decodeMetadata buf i).Vers = FANOTIFY_METADATA_VERSION
      · simp only [hv, if_true, List.mem_cons] at hr
        rcases hr with rfl | hr
        · simp
        · have := ih buf (i + (decodeMetadata buf i).Event_len)
            (n - (decodeMetadata buf i).Event_len) r hr
          omega
      · simp [hv] at hr
    · simp [hOK] at hr

theorem readEventsLoopAux_pairwise (resolve : Nat → Option String) :
    ∀ fuel buf i n,
      ((readEventsLoopAux resolve fuel buf i n).fst.map RecordResult.offset).Pairwise
        (· < ·) := by
  intro fuel
  induction fuel with
  | zero => intro buf i n; simp [readEventsLoopAux]
  | succ fuel ih =>
    intro buf i n
    simp only [readEventsLoopAux]
    by_cases hOK : FanotifyEventOK (decodeMetadata buf i) n
    · have hb := (fanotifyEventOK_iff _ n).mp hOK
      simp only [hOK, if_true]
      by_cases hv : (decodeMetadata buf i).Vers = FANOTIFY_METADATA_VERSION
      · simp only [hv, if_true, List.map_cons]
        refine List.pairwise_cons.mpr ⟨?_, ih buf _ _⟩
        intro b hb2
        obtain ⟨r, hr, rfl⟩ := List.mem_map.mp hb2
        have := readEventsLoopAux_offset_lb resolve fuel buf
          (i + (decodeMetadata buf i).Event_len)
          (n - (decodeMetadata buf i).Event_len) r hr
        omega
      · simp [hv]
    · simp [hOK]

theorem readEventsFIDAux_len (reportFID : Bool)
    (resolve procRl : Nat → Option String) :
    ∀ fuel buf i n,
      24 * (readEventsFIDAux reportFID resolve procRl fuel buf i n).fst.length ≤ n := by
  intro fuel
  induction fuel with
  | zero => intro buf i n; simp [readEventsFIDAux]
  | succ fuel ih =>
    intro buf i n
    simp only [readEventsFIDAux]
    by_cases hOK : FanotifyEventOK (decodeMetadata buf i) n
    · have hb := (fanotifyEventOK_iff _ n).mp hOK
      simp only [hOK, if_true]
      by_cases hv : (decodeMetadata buf i).Vers = FANOTIFY_METADATA_VERSION
      · simp only [hv, if_true]
        have hrec := ih buf (i + (decodeMetadata buf i).Event_len)
          (n - (decodeMetadata buf i).Event_len)
        split
        · simp
        · split
          · split
            · split
              · simp only [List.length_cons]; omega
              · simp only [List.length_cons]; omega
            · simp
          · split
            · split
              · simp
              · simp only [List.length_cons]; omega
            · simp only [List.length_cons]; omega
      · simp [hv]
    · simp [hOK]

/-- C10: the record walk over any finite buffer is bounded: every accepted
record consumes `Event_len ≥ 24` bytes of `n`, so at most `n / 24`
iterations run — the count bound holds for the first variant's walk
(whose `OpenByHandleAt`-failure path advances identically) and for the
report-FID variants' walk — and the cursor offsets of the processed
records are strictly increasing. -/
theorem c10_record_walk_bounded (resolve : Nat → Option String)
    (buf : List Nat) (i n : Nat) :
    24 * (readEventsLoop resolve buf i n).fst.length ≤ n ∧
      ((readEventsLoop resolve buf i n).fst.map RecordResult.offset).Pairwise
        (· < ·) ∧
      ∀ (reportFID : Bool) (resolveF procRl : Nat → Option String),
        24 * (readEventsFID reportFID resolveF procRl buf i n).fst.length ≤ n :=
  ⟨readEventsLoopAux_len resolve (n + 1) buf i n,
   readEventsLoopAux_pairwise resolve (n + 1) buf i n,
   fun reportFID resolveF procRl =>
     readEventsFIDAux_len reportFID resolveF procRl (n + 1) buf i n⟩

/-! ## The trailing auxiliary record reader `debugFIDStruct`

`src/fanotify.go` lines 404-475 (second variant).  Starting at
`idx = i + metadata.Metadata_len` the function copies, byte by byte with
`buf[idx]; idx += 1`: the 4-byte `FanotifyEventInfoHeader`, the 8-byte
filesystem id, the 4-byte little-endian `handle_bytes` count `fhSize`,
the 4-byte `handle_type`, and then exactly `fhSize` raw handle bytes,
building a `unix.FileHandle` from the type and those bytes.  No index is
ever compared against `i + metadata.Event_len` (or against the read's
valid length); the returned final index records how far consumption
went. -/

structure FileHandleM where
  handleType : Nat
  handleBytes : List Nat
deriving DecidableEq, Repr

def debugFIDStruct (meta : FanotifyEventMetadata) (buf : List Nat) (i : Nat) :
    FileHandleM × Nat :=
  let idx0 := i + meta.Metadata_len
  let idx1 := idx0 + 4
  let idx2 := idx1 + 8
  let fhSize := readLE buf idx2 4
  let idx3 := idx2 + 4
  let fhType := readLE buf idx3 4
  let idx4 := idx3 + 4
  (⟨fhType, (List.range fhSize).map fun j => readByte buf (idx4 + j)⟩,
   idx4 + fhSize)

/-- A 44-byte buffer: a 24-byte header declaring `Event_len = 24` and
`Metadata_len = 24`, followed by 20 bytes of auxiliary record whose
`handle_bytes` field claims 100 handle bytes. -/
def bufTruncatedAux : List Nat :=
  [24, 0, 0, 0, 3, 0, 24, 0, 1, 0, 0, 0, 0, 0, 0, 0, 255, 255, 255, 255,
   0, 0, 0, 0] ++ [1, 0, 24, 0] ++ List.replicate 8 0 ++ [100, 0, 0, 0] ++
   [1, 0, 0, 0]

/-- C5 evaluation at the failing input: the record declares
`Event_len = 24`, yet `debugFIDStruct` consumes bytes up to index
144 = 24 + 4 + 8 + 4 + 4 + 100, reading all 100 claimed handle bytes —
far past the record's own `eventLength` boundary (24) and past the
buffer's 44 valid bytes — without any boundary comparison; its result
type has no truncation signal at all, so no `TruncatedAuxRecord` can be
raised, contrary to the claim. -/
theorem c5_unchecked_aux_reads_eval :
    (decodeMetadata bufTruncatedAux 0).Event_len = 24 ∧
      bufTruncatedAux.length = 44 ∧
      (debugFIDStruct (decodeMetadata bufTruncatedAux 0) bufTruncatedAux 0).snd
        = 144 ∧
      (debugFIDStruct (decodeMetadata bufTruncatedAux 0)
        bufTruncatedAux 0).fst.handleBytes.length = 100 ∧
      0 + (decodeMetadata bufTruncatedAux 0).Event_len <
        (debugFIDStruct (decodeMetadata bufTruncatedAux 0) bufTruncatedAux 0).snd := by
  decide

/-! ## The mask catalogues

`var masks = map[int]string` is textually identical in all three
variants; it is modelled as a list in the map literal's textual order.
Go's map iteration order is unspecified and randomized, so only the
selected set is meaningful — C9 below quantifies over iteration orders.
The first variant's `EventMask` (lines 192-200) tests
`uint64(m)&mask == 1`; the second and third variants (lines 578-586 and
`part_000` lines 272-280) test `uint64(m)&mask != 0`.  `Mask` in the
second variant (lines 290-319) holds the description table and selects
with `m&uint64(k) != 0`.  Values of the `unix.FAN_*` constants are from
linux/fanotify.h. -/

def masksTable : List (Nat × String) :=
  [(1, "access"), (2, "modify"), (8, "close-write"), (16, "close-no-write"),
   (32, "open"), (4096, "exec"), (4, "attrib"), (256, "create"),
   (512, "delete"), (1024, "delete-self"), (64, "moved-from"),
   (128, "moved-to"), (2048, "move-self")]

/-- Selection with the nonzero test, over a given iteration order. -/
def maskSelect (table : List (Nat × String)) (mask : Nat) : List String :=
  (table.filter fun e => mask &&& e.fst != 0).map Prod.snd

/-- `EventMask` of the second and third variants (`!= 0` test). -/
def eventMaskNames (mask : Nat) : List String := maskSelect masksTable mask

/-- `EventMask` of the first variant (`== 1` test), lines 192-200. -/
def eventMaskNamesEq1 (mask : Nat) : List String :=
  (masksTable.filter fun e => mask &&& e.fst == 1).map Prod.snd

def maskDescTable : List (Nat × String) :=
  [(1, "Create an event when a file or directory (but see BUGS) is accessed (read)"),
   (2, "Create an event when a file is modified (write)."),
   (1073741824, "Create events for directories when readdir, opendir, closedir are called"),
   (134217728, "Events for the immediate children of marked directories shall be created"),
   (8, "Create an event when a writable file is closed."),
   (16, "Create an event when a read-only file or directory is closed."),
   (32, "Create an event when a file or directory is opened."),
   (4096, "Create  an  event  when a file is opened with the intent to be executed."),
   (4, "Create an event when the metadata for a file or directory has changed."),
   (256, "Create an event when a file or directory has been created in a marked parent directory."),
   (512, "Create an event when a file or directory has been deleted in a marked parent directory."),
   (1024, "Create an event when a marked file or directory itself is deleted."),
   (64, "Create an event when a file or directory has been moved from a marked parent directory."),
   (128, "Create an event when a file or directory has been moved to a marked parent directory."),
   (2048, "Create an event when a marked file or directory itself has been moved.")]

/-- `Mask`'s `getDesc` of the second variant (lines 290-319). -/
def maskDescriptions (mask : Nat) : List String := maskSelect maskDescTable mask

/-- C4 evaluation at the failing input `mask = FAN_ACCESS | FAN_MODIFY`:
the first variant's `EventMask` (`== 1` test) yields only `access`
(`3 & 2 = 2 ≠ 1` rejects `modify`), while the nonzero-test variant yields
exactly `access` and `modify` as the claim and §4.5 of the spec require.
The spec's design notes flag the `== 1` comparison as a defect not to be
reproduced. -/
theorem c4_mask_eq1_defect_eval :
    eventMaskNamesEq1 (1 ||| 2) = ["access"] ∧
      eventMaskNames (1 ||| 2) = ["access", "modify"] := by
  decide

/-- C9: the catalogue selections are functions of the mask and the
selected set alone: for any two iteration orders of the (fixed) name and
description tables — Go randomizes map iteration — the selections are
permutations of each other, and membership in the name selection is
independent of the iteration order.  Calling twice with the same mask
therefore yields equal sets. -/
theorem c9_mask_catalog_set_semantics (mask : Nat)
    (p q r s : List (Nat × String))
    (hp : p.Perm masksTable) (hq : q.Perm masksTable)
    (hr : r.Perm maskDescTable) (hs : s.Perm maskDescTable) :
    (maskSelect p mask).Perm (maskSelect q mask) ∧
      (maskSelect r mask).Perm (maskSelect s mask) ∧
      ∀ x : String, x ∈ maskSelect p mask ↔ x ∈ eventMaskNames mask := by
  refine ⟨((hp.trans hq.symm).filter _).map _,
          ((hr.trans hs.symm).filter _).map _, ?_⟩
  intro x
  exact ((hp.filter _).map _).mem_iff

/-- The name table with its first two entries transposed: one alternative
iteration order. -/
def masksTableSwapped : List (Nat × String) :=
  (2, "modify") :: (1, "access") :: masksTable.drop 2

/-- Witness for C9 at `mask = 3` and two distinct iteration orders. -/
theorem c9_mask_catalog_set_semantics_witness :
    (maskSelect masksTable 3).Perm (maskSelect masksTableSwapped 3) ∧
      (maskSelect maskDescTable 3).Perm (maskSelect maskDescTable 3) ∧
      ∀ x : String, x ∈ maskSelect masksTable 3 ↔ x ∈ eventMaskNames 3 :=
  c9_mask_catalog_set_semantics 3 masksTable masksTableSwapped maskDescTable
    maskDescTable (List.Perm.refl _) (List.Perm.swap _ _ _) (List.Perm.refl _)
    (List.Perm.refl _)

/-! ## Mount-table resolution

`watch` (`src/unnamed/part_000` lines 143-151, `src/fanotify.go` lines
365-373) scans the `/proc/self/mountinfo` snapshot lines in order:
`toks := strings.Split(line, " ")`, and for the first line with
`toks[0] == strconv.Itoa(mountID)` takes `mountPoint = toks[4]` and
breaks.  `splitSpAux` reproduces `strings.Split(line, " ")` (single-space
separator, empty tokens preserved, one token for the empty string);
mountinfo fields are single-space separated.  `toks[0]` always exists
(`Split` never returns an empty slice); `toks[4]` is modelled with a
`getD` default where Go would panic on a matching line of fewer than five
fields.  When no line matches, `mountPoint` keeps its zero value `""`
(and the subsequent `unix.Open` fails fatally at startup). -/

def splitSpAux : List Char → List Char → List String
  | [], acc => [String.mk acc.reverse]
  | c :: cs, acc =>
    if c = ' ' then String.mk acc.reverse :: splitSpAux cs []
    else splitSpAux cs (c :: acc)

/-- `strings.Split(line, " ")`. -/
def fieldsOf (line : String) : List String := splitSpAux line.toList []

/-- The mount-point scan loop of `watch`. -/
def findMountPoint : List String → String → String
  | [], _ => ""
  | line :: rest, idStr =>
    if (fieldsOf line).getD 0 "" == idStr then (fieldsOf line).getD 4 ""
    else findMountPoint rest idStr

/-- C8: for every snapshot and mount identifier, the scan returns field 4
(the mount point) of the first line whose field 0 equals
`strconv.Itoa(mountID)` — first occurrence in snapshot order breaks
ties. -/
theorem c8_mount_resolution_first_match (lines : List String) (mountID : Nat)
    (l : String)
    (h : lines.find? (fun s => (fieldsOf s).getD 0 "" == toString mountID)
      = some l) :
    findMountPoint lines (toString mountID) = (fieldsOf l).getD 4 "" := by
  induction lines with
  | nil => simp at h
  | cons a rest ih =>
    cases hb : ((fieldsOf a).getD 0 "" == toString mountID) with
    | true =>
      simp only [List.find?, hb] at h
      cases h
      unfold findMountPoint
      rw [if_pos hb]
    | false =>
      simp only [List.find?, hb] at h
      unfold findMountPoint
      rw [if_neg (by simpa using hb)]
      exact ih h

def demoMountLine : String := "23 45 0:3 / / rw,relatime shared:1 - ext4 /dev/sda1 rw"

/-- A three-line snapshot containing the spec's example line; the later
duplicate identifier checks the first-occurrence tie-break. -/
def demoSnapshot : List String :=
  ["20 1 0:4 / /sys rw - sysfs sysfs rw", demoMountLine,
   "23 99 0:9 / /bogus rw - tmpfs tmpfs rw"]

/-- Witness for C8: in the demo snapshot, resolving mountID 23 finds the
example line first and yields mount point `/`. -/
theorem c8_mount_resolution_first_match_witness :
    demoSnapshot.find? (fun s => (fieldsOf s).getD 0 "" == toString 23)
        = some demoMountLine ∧
      findMountPoint demoSnapshot (toString 23) = "/" := by
  refine ⟨by decide, ?_⟩
  have h := c8_mount_resolution_first_match demoSnapshot 23 demoMountLine
    (by decide)
  rw [h]
  decide

end Fanotify
